import Mathlib

/-!
Verification of the franklin-lap-counter race session engine.

This file shallowly embeds the core of the repository in Lean 4:

* `src/race/lap.py` — the `Lap` record and its `__post_init__` validation
  (`mkLap` below is the validated constructor; since every Python `Lap`
  object that exists has passed validation, the embedded `Lap` stores the
  validated non-negative lap number as a `Nat`);
* `src/race/race.py` — `Race`, `Race.add_lap`, `Race.leaderboard` and
  `make_lap_from_sensor_data_and_race`;
* `src/hardware_comm_process.py` / `src/hardware_comm_redis.py` — the serial
  line decoder and the heartbeat-staleness check of the reader loop (both
  files contain the same decoding logic; it is embedded once);
* `src/async_multiprocessing_bridge.py` — the queue bridge, embedded as a
  small interleaving step relation.

Python `float` values are modelled as rationals (`ℚ`); Python's
`float('inf')` sentinel for "no best lap yet" is modelled as `none` in an
`Option ℚ` (`none` plays the role of +infinity, see `bestLE`).
-/

namespace Franklin

/-- `RaceState` enum from `src/race/race.py`. -/
inductive RaceState where
  | NOT_STARTED
  | RUNNING
  | PAUSED
  | WINNER_DECLARED
  | FINISHED
deriving DecidableEq, Repr

/-- The `Lap` dataclass of `src/race/lap.py`.  A constructed `Lap` always
satisfies `lap_number >= 0` (enforced by `__post_init__`), so the embedded
record stores the lap number as a `Nat`; `mkLap` is the validating
constructor that takes the raw `int` argument. -/
structure Lap where
  racer_id : ℤ
  lap_number : ℕ
  seconds_from_race_start : ℚ
  internal_lap_time : ℚ
  lap_time : ℚ
deriving DecidableEq, Repr

/-- `Lap.__post_init__` validation from `src/race/lap.py`: rejects a negative
`lap_number`, a non-positive `seconds_from_race_start` and a non-positive
`internal_lap_time`, in that order.  `lap_time` is not checked. -/
def mkLap (racer_id lap_number : ℤ) (seconds_from_race_start internal_lap_time lap_time : ℚ) :
    Except String Lap :=
  if lap_number < 0 then .error "Lap number must be >= 0"
  else if seconds_from_race_start ≤ 0 then .error "Seconds from race start must be positive"
  else if internal_lap_time ≤ 0 then .error "Internal lap time must be positive"
  else .ok ⟨racer_id, lap_number.toNat, seconds_from_race_start, internal_lap_time, lap_time⟩

/-- The mutable fields of `Race` (`src/race/race.py`, `Race.__init__`). -/
structure Race where
  laps : List Lap
  state : RaceState
  start_time : Option ℚ
  elapsed_time : ℚ
  total_laps : ℤ
  active_contestants : Finset ℤ
deriving DecidableEq

/-- Per-racer accumulator dictionary value built by `Race.leaderboard`
(`stats[rid]` in the source).  `best_lap_time = none` stands for the
source's `float('inf')`. -/
structure RacerStats where
  lap_count : ℕ
  best_lap_time : Option ℚ
  last_lap_time : ℚ
  total_time : ℚ
deriving DecidableEq, Repr

/-- First sight of a racer in `Race.leaderboard`: the dictionary entry made
for a racer's first lap (lap 0 is excluded from the count and best time). -/
def initStats (lap : Lap) : RacerStats :=
  { lap_count := if lap.lap_number = 0 then 0 else 1
    best_lap_time := if lap.lap_number = 0 then none else some lap.lap_time
    last_lap_time := lap.lap_time
    total_time := lap.seconds_from_race_start }

/-- The `else` branch of the accumulation loop in `Race.leaderboard`: scored
laps (`lap_number > 0`) bump the count, best and last lap times; every lap
may push `total_time` up to its `seconds_from_race_start`. -/
def updateStats (s : RacerStats) (lap : Lap) : RacerStats :=
  let s1 :=
    if 0 < lap.lap_number then
      { s with
        lap_count := s.lap_count + 1
        best_lap_time :=
          match s.best_lap_time with
          | none => some lap.lap_time
          | some b => if lap.lap_time < b then some lap.lap_time else some b
        last_lap_time := lap.lap_time }
    else s
  if s1.total_time < lap.seconds_from_race_start then
    { s1 with total_time := lap.seconds_from_race_start }
  else s1

/-- One step of the dictionary-building loop of `Race.leaderboard`: a Python
`dict` keyed by `racer_id` in insertion order, modelled as an association
list. -/
def addLapToStats (stats : List (ℤ × RacerStats)) (lap : Lap) : List (ℤ × RacerStats) :=
  match stats with
  | [] => [(lap.racer_id, initStats lap)]
  | (rid, s) :: rest =>
    if rid = lap.racer_id then (rid, updateStats s lap) :: rest
    else (rid, s) :: addLapToStats rest lap

/-- The full `stats` dictionary of `Race.leaderboard` after the loop over
`self.laps`. -/
def buildStats (laps : List Lap) : List (ℤ × RacerStats) :=
  laps.foldl addLapToStats []

/-- Order on best lap times with `none` as `float('inf')`: every finite time
is below infinity, and infinity is only below itself. -/
def bestLE : Option ℚ → Option ℚ → Bool
  | _, none => true
  | none, some _ => false
  | some a, some b => a ≤ b

/-- The sort key of `Race.leaderboard`: Python's
`key=lambda item: (-lap_count, best_lap_time)` compared lexicographically. -/
def statsKeyLE (x y : ℤ × RacerStats) : Prop :=
  y.2.lap_count < x.2.lap_count ∨
    (x.2.lap_count = y.2.lap_count ∧ bestLE x.2.best_lap_time y.2.best_lap_time = true)

instance statsKeyLE.decRel : DecidableRel statsKeyLE := fun x y => by
  unfold statsKeyLE; infer_instance

instance statsKeyLE_total : IsTotal (ℤ × RacerStats) statsKeyLE := by
  constructor
  intro x y
  rcases Nat.lt_trichotomy x.2.lap_count y.2.lap_count with h | h | h
  · exact Or.inr (Or.inl h)
  · have hb : bestLE x.2.best_lap_time y.2.best_lap_time = true ∨
        bestLE y.2.best_lap_time x.2.best_lap_time = true := by
      rcases x.2.best_lap_time with _ | a <;> rcases y.2.best_lap_time with _ | b <;>
        simp [bestLE]
      exact le_total a b
    rcases hb with hb | hb
    · exact Or.inl (Or.inr ⟨h, hb⟩)
    · exact Or.inr (Or.inr ⟨h.symm, hb⟩)
  · exact Or.inl (Or.inl h)

instance statsKeyLE_trans : IsTrans (ℤ × RacerStats) statsKeyLE := by
  constructor
  intro x y z hxy hyz
  have hbt : ∀ a b c : Option ℚ, bestLE a b = true → bestLE b c = true →
      bestLE a c = true := by
    intro a b c h1 h2
    rcases a with _ | a <;> rcases b with _ | b <;> rcases c with _ | c <;>
      simp_all [bestLE]
    exact le_trans h1 h2
  rcases hxy with h1 | ⟨e1, b1⟩
  · rcases hyz with h2 | ⟨e2, b2⟩
    · exact Or.inl (lt_trans h2 h1)
    · exact Or.inl (e2 ▸ h1)
  · rcases hyz with h2 | ⟨e2, b2⟩
    · exact Or.inl (e1 ▸ h2)
    · exact Or.inr ⟨e1.trans e2, hbt _ _ _ b1 b2⟩

/-- Equality of `Except` results is decidable when both sides are; used to
run the embedded operations on concrete scenario data. -/
instance exceptDecEq {e a : Type} [DecidableEq e] [DecidableEq a] : DecidableEq (Except e a) :=
  fun x y =>
  match x, y with
  | .error u, .error v => decidable_of_iff (u = v) (by simp)
  | .error _, .ok _ => .isFalse (by simp)
  | .ok _, .error _ => .isFalse (by simp)
  | .ok u, .ok v => decidable_of_iff (u = v) (by simp)

/-- One row of the list returned by `Race.leaderboard`:
`(position, racer_id, lap_count, best_lap_time, last_lap_time, total_time)`. -/
structure LBEntry where
  position : ℕ
  racer_id : ℤ
  lap_count : ℕ
  best_lap_time : Option ℚ
  last_lap_time : ℚ
  total_time : ℚ
deriving DecidableEq, Repr

/-- `Race.leaderboard` from `src/race/race.py`: build the per-racer stats
dictionary, sort it stably by `(-lap_count, best_lap_time)`, and assign
positions 1..N in sorted order.  Python's `sorted` is a stable sort; a
stable sort under a fixed total preorder is unique, and `List.insertionSort`
is stable, so it is the embedding of `sorted`. -/
def leaderboard (laps : List Lap) : List LBEntry :=
  let sortedStats := List.insertionSort statsKeyLE (buildStats laps)
  sortedStats.enum.map fun p =>
    { position := p.1 + 1
      racer_id := p.2.1
      lap_count := p.2.2.lap_count
      best_lap_time := p.2.2.best_lap_time
      last_lap_time := p.2.2.last_lap_time
      total_time := p.2.2.total_time }

/-- `Race.add_lap` from `src/race/race.py`: reject the lap unless the race is
`RUNNING` or `WINNER_DECLARED`; otherwise register the racer as an active
contestant (scored laps only), append the lap, and run the winner-declared
and all-active-finished checks against the recomputed leaderboard. -/
def addLap (race : Race) (lap : Lap) : Except String Race :=
  if race.state = RaceState.RUNNING ∨ race.state = RaceState.WINNER_DECLARED then
    let active :=
      if 0 < lap.lap_number then insert lap.racer_id race.active_contestants
      else race.active_contestants
    let laps := race.laps ++ [lap]
    let lb := leaderboard laps
    match lb with
    | [] => .ok { race with laps := laps, active_contestants := active }
    | leader :: _ =>
      let state1 :=
        if race.total_laps ≤ (leader.lap_count : ℤ) ∧ race.state = RaceState.RUNNING then
          RaceState.WINNER_DECLARED
        else race.state
      let state2 :=
        if active.Nonempty ∧
            ∀ e ∈ lb, e.racer_id ∈ active → race.total_laps ≤ (e.lap_count : ℤ) then
          RaceState.FINISHED
        else state1
      .ok { race with laps := laps, active_contestants := active, state := state2 }
  else .error "Cannot add lap unless race is running or waiting for other racers to finish"

/-- `make_lap_from_sensor_data_and_race` from `src/race/race.py` (the spec's
`derive_lap`).  The parameter name `interal_time` keeps the source's
spelling. -/
def make_lap_from_sensor_data_and_race (racer_id : ℤ) (race_time interal_time : ℚ)
    (race : Race) : Except String Lap :=
  let lap_number : ℤ := ((race.laps.filter fun lap => lap.racer_id = racer_id).length : ℤ)
  match race.start_time with
  | none => .error "Race has not started"
  | some _ =>
    let laps := race.laps.filter fun lap => lap.racer_id = racer_id
    let lap_time : ℚ :=
      match laps.getLast? with
      | none => race_time
      | some last => race_time - last.seconds_from_race_start
    mkLap racer_id lap_number race_time interal_time lap_time

/-- The number of scored laps (lap_number > 0) a racer has in a lap list —
the specification's reading of a leaderboard `lap_count`. -/
def countScored (laps : List Lap) (rid : ℤ) : ℕ :=
  (laps.filter fun l => l.racer_id = rid ∧ 0 < l.lap_number).length

/-- The lap times of a racer's scored laps, in order. -/
def scoredTimes (laps : List Lap) (rid : ℤ) : List ℚ :=
  (laps.filter fun l => l.racer_id = rid ∧ 0 < l.lap_number).map (·.lap_time)

/-- All `seconds_from_race_start` values observed for a racer, in order. -/
def racerTotals (laps : List Lap) (rid : ℤ) : List ℚ :=
  (laps.filter fun l => l.racer_id = rid).map (·.seconds_from_race_start)

/-- The `lap_time` of a racer's most recently appended lap, if any. -/
def lastLapTimeOf (laps : List Lap) (rid : ℤ) : Option ℚ :=
  ((laps.filter fun l => l.racer_id = rid).getLast?).map (·.lap_time)

/-!  The serial line decoder shared by `HardwareCommProcess.run`
(`src/hardware_comm_process.py`) and `HardwareCommRedis._handle_output_line`
(`src/hardware_comm_redis.py`); the two are line-for-line identical.  A
Python `str` line is modelled as a `List Char`. -/

/-- Events placed on the outbound queue, keyed by the `"type"` field of the
dictionaries the source emits. -/
inductive HWEvent where
  | debug (message : List Char)
  | heartbeat
  | lap (racer_id sensor_id : ℤ) (race_time : ℚ)
  | newMsg (sensor_id : ℤ) (raw_time : ℚ) (flag1 flag2 : List Char)
  | status (message : List Char)
  | raw (line : List Char)
deriving DecidableEq, Repr

/-- The value of a list of decimal digit characters, `none` if the list is
empty or holds a non-digit — the digit-string core of Python's `int`/`float`
parsing. -/
def digitsVal : List Char → Option ℕ
  | [] => none
  | [c] => if c.isDigit then some (c.toNat - '0'.toNat) else none
  | c :: rest =>
    if c.isDigit then
      match digitsVal rest with
      | none => none
      | some n => some ((c.toNat - '0'.toNat) * 10 ^ rest.length + n)
    else none

/-- Python `int(s)` on a tab-split field: an optional sign followed by
digits.  (Python also strips whitespace and allows underscores; the device's
fields never carry those, and the claims only constrain inputs this parse
accepts.) -/
def parseInt (s : List Char) : Option ℤ :=
  match s with
  | '-' :: rest => (digitsVal rest).map fun n => -(n : ℤ)
  | '+' :: rest => (digitsVal rest).map fun n => (n : ℤ)
  | _ => (digitsVal s).map fun n => (n : ℤ)

/-- Python `float(s)` restricted to plain decimal notation: optional sign,
integer digits, optional `.` and fraction digits, at least one digit in
total.  The hardware's `race_time`/`raw_time` fields are plain decimals. -/
def parseFloat (s : List Char) : Option ℚ :=
  let core : List Char → Option ℚ := fun t =>
    match t.splitOn '.' with
    | [ip] => (digitsVal ip).map fun n => (n : ℚ)
    | [ip, fp] =>
      match digitsVal ip, digitsVal fp with
      | some i, some f => some ((i : ℚ) + (f : ℚ) / (10 : ℚ) ^ fp.length)
      | some i, none => if fp = [] then some ((i : ℚ)) else none
      | none, some f => if ip = [] then some ((f : ℚ) / (10 : ℚ) ^ fp.length) else none
      | none, none => none
    | _ => none
  match s with
  | '-' :: rest => (core rest).map fun q => -q
  | '+' :: rest => core rest
  | _ => core s

/-- `needle in hay` for character sequences (Python's `in` on `str`). -/
def containsSeq (needle : List Char) : List Char → Bool
  | [] => needle.isEmpty
  | c :: rest => needle.isPrefixOf (c :: rest) || containsSeq needle rest

/-- The heartbeat payload marker `"xC249"`. -/
def hbMarker : List Char := "xC249".toList

/-- The message of the synthetic heartbeat-timeout status event. -/
def hbLostMsg : List Char := "Heartbeat lost".toList

/-- One line through the decoder: the body of
`HardwareCommRedis._handle_output_line`, which is also the line-handling
block of `HardwareCommProcess.run`.  Returns the emitted events (in order)
and the updated last-heartbeat clock.  Where the source interpolates a
caught exception's text into the `"Error parsing ..."` status message, the
embedding keeps just the fixed text and the line. -/
def decode (line : List Char) (now last_heartbeat : ℚ) : List HWEvent × ℚ :=
  match line with
  | [] => ([], last_heartbeat)
  | c :: rest =>
    let l := c :: rest
    let dbg := HWEvent.debug ("Read line: ".toList ++ l)
    if ['\x01', '#'].isPrefixOf l && containsSeq hbMarker l then
      ([dbg, .heartbeat], now)
    else if ['\x01', '@'].isPrefixOf l then
      let parts := l.splitOn '\t'
      if 6 ≤ parts.length then
        match parseInt (parts.getD 3 []), parseInt (parts.getD 1 []),
            parseFloat (parts.getD 4 []) with
        | some r, some s, some t => ([dbg, .lap r s t], last_heartbeat)
        | _, _, _ => ([dbg, .status ("Error parsing lap line: ".toList ++ l)], last_heartbeat)
      else ([dbg, .status ("Malformed lap line: ".toList ++ l)], last_heartbeat)
    else if ['\x01', '$'].isPrefixOf l then
      let parts := l.splitOn '\t'
      if 5 ≤ parts.length then
        match parseInt (parts.getD 1 []),
            parseFloat ((parts.getD 2 []).map fun ch => if ch = ',' then '.' else ch) with
        | some s, some rt =>
          ([dbg, .newMsg s rt (parts.getD 3 []) (parts.getD 4 [])], last_heartbeat)
        | _, _ => ([dbg, .status ("Error parsing new_msg line: ".toList ++ l)], last_heartbeat)
      else ([dbg, .status ("Malformed new_msg line: ".toList ++ l)], last_heartbeat)
    else ([dbg, .raw l], last_heartbeat)

/-- One iteration of the serial reader loop as far as events are concerned
(`HardwareCommProcess.run` lines 113–197 / `HardwareCommRedis.run` lines
337–352): handle the line read this tick, then emit `Status{"Heartbeat
lost"}` whenever more than 10 seconds have passed since the last heartbeat.
The source calls `time.time()` afresh for the staleness test; within one
tick the embedding uses the single instant `now`. -/
def readerTick (line : List Char) (now last_heartbeat : ℚ) : List HWEvent × ℚ :=
  let p := decode line now last_heartbeat
  if 10 < now - p.2 then (p.1 ++ [.status hbLostMsg], p.2) else p

/-!  The event bridge, `AsyncMultiprocessingQueueBridge` from
`src/async_multiprocessing_bridge.py`, embedded as an interleaving step
relation.  The reader thread's loop body is split at its two program points:
checking `self._stopped` at the top of the loop, and the blocking
`mp_queue.get(timeout=0.1)`.  Scheduling a message into the asyncio queue
(`run_coroutine_threadsafe(... put ...)`) counts as buffering it. -/

/-- Reader-thread program points: about to test `self._stopped.is_set()`,
inside the bounded `mp_queue.get`, or exited. -/
inductive ReaderPC where
  | atCheck
  | atFetch
  | done
deriving DecidableEq, Repr

/-- Bridge state: the stop flag, the reader thread's program point, the
messages still in the producer-side `mp_queue`, the messages buffered in the
`asyncio.Queue`, and the messages already returned by consumer `get()`
calls. -/
structure BridgeState (α : Type) where
  stopped : Bool
  pc : ReaderPC
  producer : List α
  buffered : List α
  delivered : List α
deriving DecidableEq, Repr

/-- Interleaved small steps of the bridge: the reader thread's check and
fetch, the `stop()` caller raising the flag, and the consumer draining one
buffered message via `get()`. -/
inductive BridgeStep {α : Type} : BridgeState α → BridgeState α → Prop where
  | check_continue (s : BridgeState α) :
      s.pc = .atCheck → s.stopped = false → BridgeStep s { s with pc := .atFetch }
  | check_exit (s : BridgeState α) :
      s.pc = .atCheck → s.stopped = true → BridgeStep s { s with pc := .done }
  | fetch_item (s : BridgeState α) (m : α) (rest : List α) :
      s.pc = .atFetch → s.producer = m :: rest →
      BridgeStep s { s with pc := .atCheck, producer := rest, buffered := s.buffered ++ [m] }
  | fetch_timeout (s : BridgeState α) :
      s.pc = .atFetch → BridgeStep s { s with pc := .atCheck }
  | stop_signal (s : BridgeState α) :
      BridgeStep s { s with stopped := true }
  | consumer_get (s : BridgeState α) (m : α) (rest : List α) :
      s.buffered = m :: rest →
      BridgeStep s { s with buffered := rest, delivered := s.delivered ++ [m] }

/-- How far the reader thread still is from exiting; used to bound the wait
performed by `stop()`'s `join()`. -/
def readerDistance : ReaderPC → ℕ
  | .done => 0
  | .atCheck => 1
  | .atFetch => 2

/-!  Auxiliary definitions used to state and prove the leaderboard
properties. -/

/-- Lookup in the stats association list (Python `stats[rid]` /
`rid in stats`). -/
def lookupStats : List (ℤ × RacerStats) → ℤ → Option RacerStats
  | [], _ => none
  | (r, s) :: rest, rid => if r = rid then some s else lookupStats rest rid

/-- How one lap changes a racer's (possibly absent) stats entry. -/
def contStep (acc : Option RacerStats) (l : Lap) : RacerStats :=
  match acc with
  | none => initStats l
  | some s => updateStats s l

/-- The stats a racer's filtered lap list produces on top of a possibly
pre-existing entry; `buildStats` restricted to one racer computes exactly
this (see `lookupStats_buildStats`). -/
def contFold (acc : Option RacerStats) : List Lap → Option RacerStats
  | [] => acc
  | l :: ls => some (ls.foldl updateStats (contStep acc l))

/-- Running minimum with an "infinity" start, as `Race.leaderboard` computes
`best_lap_time` (`if lap.lap_time < best: best = lap.lap_time`). -/
def oMin (acc : Option ℚ) (t : ℚ) : Option ℚ :=
  match acc with
  | none => some t
  | some b => if t < b then some t else some b

/-- Running maximum, as `Race.leaderboard` computes `total_time`
(`if lap.seconds_from_race_start > total: total = ...`). -/
def qMax (a t : ℚ) : ℚ :=
  if a < t then t else a

/-!  Concrete data: the spec's `total_laps=3` scenario for `Race.add_lap`
(racer 1 is "A", racer 2 is "B"), and counterexample inputs. -/

/-- Fold a list of laps through `Race.add_lap`, stopping at the first
error — a test driver for the spec's scenarios. -/
def addLaps (race : Race) (laps : List Lap) : Except String Race :=
  laps.foldlM addLap race

/-- Scenario session: a freshly started race with `total_laps = 3`. -/
def scenarioRace : Race := ⟨[], .RUNNING, some 0, 0, 3, ∅⟩

/-- Scenario laps: A's lap 0 takes 1s, then laps of 10s, 9s, 11s; B's lap 0
takes 2s, then laps of 12s, 13s, 14s. -/
def lapA0 : Lap := ⟨1, 0, 1, 1, 1⟩

def lapA1 : Lap := ⟨1, 1, 11, 10, 10⟩

def lapA2 : Lap := ⟨1, 2, 20, 9, 9⟩

def lapA3 : Lap := ⟨1, 3, 31, 11, 11⟩

def lapB0 : Lap := ⟨2, 0, 2, 2, 2⟩

def lapB1 : Lap := ⟨2, 1, 14, 12, 12⟩

def lapB2 : Lap := ⟨2, 2, 27, 13, 13⟩

def lapB3 : Lap := ⟨2, 3, 41, 14, 14⟩

/-- The first seven scenario events: A and B alternate, B is one lap
behind after A's final lap. -/
def scenarioFirst7 : List Lap := [lapA0, lapB0, lapA1, lapB1, lapA2, lapB2, lapA3]

/-- All eight scenario events: B's final lap arrives last. -/
def scenarioAll8 : List Lap := scenarioFirst7 ++ [lapB3]

/-- The session state after the first seven scenario events. -/
def scenarioAfter7 : Race :=
  ⟨scenarioFirst7, .WINNER_DECLARED, some 0, 0, 3, insert 2 (insert 1 ∅)⟩

/-- The session state after all eight scenario events. -/
def scenarioAfter8 : Race :=
  ⟨scenarioAll8, .FINISHED, some 0, 0, 3, insert 2 (insert 1 ∅)⟩

/-- Counterexample session for the `FINISHED` transition: a running race
whose `active_contestants` set is still empty. -/
def cexC1Race : Race := ⟨[], .RUNNING, some 0, 0, 3, ∅⟩

/-- A start-line crossing (lap 0), which does not make its racer an active
contestant. -/
def cexC1Lap : Lap := ⟨5, 0, 1, 1, 1⟩

/-- What `add_lap` actually produces from `cexC1Race` and `cexC1Lap`. -/
def cexC1Res : Race := ⟨[cexC1Lap], .RUNNING, some 0, 0, 3, ∅⟩

/-- Counterexample laps for the `last_lap_time` claim: a scored lap followed
by a lap-0 record for the same racer. -/
def cexC7Laps : List Lap := [⟨1, 1, 5, 5, 5⟩, ⟨1, 0, 7, 7, 7⟩]

/-- Witness laps for the amended `last_lap_time` statement. -/
def witC7Laps : List Lap := [⟨1, 0, 2, 2, 2⟩, ⟨1, 1, 10, 8, 8⟩]


/-!  ## Helper lemmas -/

/-- When all three validated fields are in range, `mkLap` builds the lap. -/
theorem mkLap_ok_of {racer_id lap_number : ℤ} {sfrs internal lt : ℚ}
    (h1 : ¬lap_number < 0) (h2 : ¬sfrs ≤ 0) (h3 : ¬internal ≤ 0) :
    mkLap racer_id lap_number sfrs internal lt =
      .ok ⟨racer_id, lap_number.toNat, sfrs, internal, lt⟩ := by
  unfold mkLap
  rw [if_neg h1, if_neg h2, if_neg h3]

/-- A message list with a head other than `'H'` never equals
`"Heartbeat lost"`, whatever follows it. -/
theorem append_ne_hbLostMsg (m l : List Char) (c : Char) (hm : m.head? = some c)
    (hc : c ≠ 'H') : m ++ l ≠ hbLostMsg := by
  cases m with
  | nil => simp at hm
  | cons x xs =>
    simp only [List.head?_cons, Option.some.injEq] at hm
    subst hm
    intro he
    have h2 : hbLostMsg = 'H' :: "eartbeat lost".toList := by decide
    rw [List.cons_append, h2] at he
    injection he with h1 _
    exact hc h1

/-- The decoder itself never emits the `Heartbeat lost` status; only the
reader loop's staleness check does. -/
theorem status_hbLost_not_mem_decode (line : List Char) (now lhb : ℚ) :
    HWEvent.status hbLostMsg ∉ (decode line now lhb).1 := by
  have step : ∀ (msg l : List Char) (c : Char), msg.head? = some c → c ≠ 'H' →
      HWEvent.status hbLostMsg ∉
        [HWEvent.debug ("Read line: ".toList ++ l), HWEvent.status (msg ++ l)] := by
    intro msg l c hm hc hmem
    rcases List.mem_cons.mp hmem with h | h
    · exact HWEvent.noConfusion h
    · rw [List.mem_singleton, HWEvent.status.injEq] at h
      exact append_ne_hbLostMsg _ _ c hm hc h.symm
  match line with
  | [] => simp [decode]
  | c :: rest =>
    simp only [decode]
    split
    · simp
    · split
      · split
        · split
          · simp
          · exact step _ _ 'E' (by decide) (by decide)
        · exact step _ _ 'M' (by decide) (by decide)
      · split
        · split
          · split
            · simp
            · exact step _ _ 'E' (by decide) (by decide)
          · exact step _ _ 'M' (by decide) (by decide)
        · simp

/-- When one of the validated fields is out of range, `mkLap` errors. -/
theorem mkLap_error_of {racer_id lap_number : ℤ} {sfrs internal lt : ℚ}
    (h : lap_number < 0 ∨ sfrs ≤ 0 ∨ internal ≤ 0) :
    ∃ msg, mkLap racer_id lap_number sfrs internal lt = .error msg := by
  unfold mkLap
  rcases h with h | h | h
  · exact ⟨_, by rw [if_pos h]⟩
  · by_cases h1 : lap_number < 0
    · exact ⟨_, by rw [if_pos h1]⟩
    · exact ⟨_, by rw [if_neg h1, if_pos h]⟩
  · by_cases h1 : lap_number < 0
    · exact ⟨_, by rw [if_pos h1]⟩
    · by_cases h2 : sfrs ≤ 0
      · exact ⟨_, by rw [if_neg h1, if_pos h2]⟩
      · exact ⟨_, by rw [if_neg h1, if_neg h2, if_pos h]⟩

/-!  ## Claim theorems -/

/-- C8 (counterexample): a `Lap` construction whose `lap_time` is the
non-positive value `-2` succeeds — `__post_init__` never checks `lap_time`,
so a construction with a non-positive time value does not always fail. -/
theorem C8_lap_time_unchecked_cex :
    ((-2 : ℚ) ≤ 0) ∧ mkLap 1 1 5 5 (-2) = .ok ⟨1, 1, 5, 5, -2⟩ := by
  constructor
  · norm_num
  · rfl

/-- C8 (amended): a `Lap` construction with a negative `lap_number`, a
non-positive `seconds_from_race_start` or a non-positive
`internal_lap_time` fails fast with an error rather than producing a Lap;
`lap_time` is the one time field that is not validated. -/
theorem C8_lap_validation_rejects (racer_id lap_number : ℤ)
    (sfrs internal lt : ℚ)
    (h : lap_number < 0 ∨ sfrs ≤ 0 ∨ internal ≤ 0) :
    ∃ msg, mkLap racer_id lap_number sfrs internal lt = .error msg :=
  mkLap_error_of h

/-- C8 witness: the amended statement at a concrete invalid input. -/
theorem C8_lap_validation_witness :
    ∃ msg, mkLap 3 (-1) 4 4 4 = .error msg :=
  C8_lap_validation_rejects 3 (-1) 4 4 4 (Or.inl (by decide))

/-- C10: `Lap` construction fails exactly when `lap_number < 0`,
`seconds_from_race_start ≤ 0` or `internal_lap_time ≤ 0`; in particular a
construction whose `lap_time` is the negative value `-3` (other fields
valid) succeeds, because `lap_time` is never validated. -/
theorem C10_lap_validation_iff (racer_id lap_number : ℤ) (sfrs internal lt : ℚ) :
    ((∃ msg, mkLap racer_id lap_number sfrs internal lt = .error msg) ↔
      (lap_number < 0 ∨ sfrs ≤ 0 ∨ internal ≤ 0)) ∧
    (((-3 : ℚ) ≤ 0) ∧ mkLap 7 2 5 6 (-3) = .ok ⟨7, 2, 5, 6, -3⟩) := by
  refine ⟨⟨fun he => ?_, fun h => mkLap_error_of h⟩, by norm_num, rfl⟩
  by_contra hno
  push_neg at hno
  obtain ⟨h1, h2, h3⟩ := hno
  obtain ⟨msg, hmsg⟩ := he
  rw [mkLap_ok_of (not_lt.mpr h1) (not_le.mpr h2) (not_le.mpr h3)] at hmsg
  exact Except.noConfusion hmsg

/-- C5: `add_lap` in any state other than `RUNNING` or `WINNER_DECLARED`
raises (the embedded `addLap` returns the error the source raises) and
produces no updated race — in the functional embedding the caller keeps the
race it passed in, so `laps`, `active_contestants` and `state` are exactly
what they were before the call. -/
theorem C5_addLap_rejected_outside_running (race : Race) (lap : Lap)
    (h : ¬(race.state = RaceState.RUNNING ∨ race.state = RaceState.WINNER_DECLARED)) :
    addLap race lap =
        .error "Cannot add lap unless race is running or waiting for other racers to finish" ∧
      ∀ r' : Race, addLap race lap ≠ .ok r' := by
  have he : addLap race lap =
      .error "Cannot add lap unless race is running or waiting for other racers to finish" := by
    unfold addLap
    rw [if_neg h]
  exact ⟨he, fun r' hok => by rw [he] at hok; exact Except.noConfusion hok⟩

/-- C5 witness: a `NOT_STARTED` race rejects a lap. -/
theorem C5_witness :
    addLap ⟨[], .NOT_STARTED, none, 0, 10, ∅⟩ ⟨1, 1, 1, 1, 1⟩ =
        .error "Cannot add lap unless race is running or waiting for other racers to finish" ∧
      ∀ r' : Race, addLap ⟨[], .NOT_STARTED, none, 0, 10, ∅⟩ ⟨1, 1, 1, 1, 1⟩ ≠ .ok r' :=
  C5_addLap_rejected_outside_running ⟨[], .NOT_STARTED, none, 0, 10, ∅⟩ ⟨1, 1, 1, 1, 1⟩
    (by decide)

/-- C3: `make_lap_from_sensor_data_and_race` fails when the race has not
started; once started (and for sensor times that pass `Lap` validation) the
racer's first observation yields lap 0 with `lap_time = race_time`, and an
observation with N-1 prior observations yields `lap_number = N-1` and
`lap_time = race_time` minus the previous lap's `seconds_from_race_start`. -/
theorem C3_derive_lap (racer_id : ℤ) (race_time interal_time : ℚ) (race : Race) :
    (race.start_time = none →
      make_lap_from_sensor_data_and_race racer_id race_time interal_time race =
        .error "Race has not started") ∧
    ∀ t0 : ℚ, race.start_time = some t0 → 0 < race_time → 0 < interal_time →
      ((race.laps.filter fun l => l.racer_id = racer_id) = [] →
        make_lap_from_sensor_data_and_race racer_id race_time interal_time race =
          .ok ⟨racer_id, 0, race_time, interal_time, race_time⟩) ∧
      ∀ last : Lap, (race.laps.filter fun l => l.racer_id = racer_id).getLast? = some last →
        make_lap_from_sensor_data_and_race racer_id race_time interal_time race =
          .ok ⟨racer_id, (race.laps.filter fun l => l.racer_id = racer_id).length,
            race_time, interal_time, race_time - last.seconds_from_race_start⟩ := by
  constructor
  · intro hnone
    unfold make_lap_from_sensor_data_and_race
    rw [hnone]
  · intro t0 hsome hrt hit
    constructor
    · intro hempty
      simp only [make_lap_from_sensor_data_and_race, hsome, hempty, List.getLast?_nil,
        List.length_nil]
      rw [mkLap_ok_of (not_lt.mpr (Int.natCast_nonneg _)) (not_le.mpr hrt) (not_le.mpr hit)]
      simp
    · intro last hlast
      simp only [make_lap_from_sensor_data_and_race, hsome, hlast]
      rw [mkLap_ok_of (not_lt.mpr (Int.natCast_nonneg _)) (not_le.mpr hrt) (not_le.mpr hit)]
      simp

/-- C4: on a serial line starting with control byte `0x01` then `@`, the
decoder splits on tab; with at least 6 fields whose fields 3, 1 and 4 parse
as int, int and float, it emits exactly the debug echo and a `Lap` event
carrying `racer_id = field[3]`, `sensor_id = field[1]`,
`race_time = field[4]`; with fewer than 6 fields it emits the debug echo
and a `Status` whose message begins `"Malformed lap line"`, and no `Lap`
event at all. -/
theorem C4_lap_line_decode (rest : List Char) (now lhb : ℚ) :
    (6 ≤ (('\x01' :: '@' :: rest).splitOn '\t').length →
      ∀ r s : ℤ, ∀ t : ℚ,
        parseInt ((('\x01' :: '@' :: rest).splitOn '\t').getD 3 []) = some r →
        parseInt ((('\x01' :: '@' :: rest).splitOn '\t').getD 1 []) = some s →
        parseFloat ((('\x01' :: '@' :: rest).splitOn '\t').getD 4 []) = some t →
        (decode ('\x01' :: '@' :: rest) now lhb).1 =
          [.debug ("Read line: ".toList ++ ('\x01' :: '@' :: rest)), .lap r s t]) ∧
    ((('\x01' :: '@' :: rest).splitOn '\t').length < 6 →
      (decode ('\x01' :: '@' :: rest) now lhb).1 =
          [.debug ("Read line: ".toList ++ ('\x01' :: '@' :: rest)),
           .status ("Malformed lap line: ".toList ++ ('\x01' :: '@' :: rest))] ∧
      ∀ r s : ℤ, ∀ t : ℚ, HWEvent.lap r s t ∉ (decode ('\x01' :: '@' :: rest) now lhb).1) := by
  have hhb : (['\x01', '#'].isPrefixOf ('\x01' :: '@' :: rest)) = false := by
    simp [List.isPrefixOf]
  have hat : (['\x01', '@'].isPrefixOf ('\x01' :: '@' :: rest)) = true := by
    simp [List.isPrefixOf]
  constructor
  · intro hlen r s t hr hs ht
    simp only [decode, hhb, hat, Bool.false_and, Bool.false_eq_true, if_false, if_true,
      if_pos hlen, hr, hs, ht]
  · intro hlen
    have hnot : ¬6 ≤ (('\x01' :: '@' :: rest).splitOn '\t').length := by omega
    constructor
    · simp only [decode, hhb, hat, Bool.false_and, Bool.false_eq_true, if_false, if_true,
        if_neg hnot]
    · intro r s t
      simp only [decode, hhb, hat, Bool.false_and, Bool.false_eq_true, if_false, if_true,
        if_neg hnot]
      simp

/-- C6 (counterexample): with no heartbeat in sight (`last_heartbeat = 0`),
the reader-loop tick at `now = 11` emits `Status{"Heartbeat lost"}`, and the
very next tick at `now = 12` — still without any heartbeat line — emits it
again: the loop emits one per tick while stale, not one per detection as
the claim states (the source tracks no "lost" flag). -/
theorem C6_heartbeat_lost_repeats_cex :
    readerTick [] 11 0 = ([HWEvent.status hbLostMsg], 0) ∧
    readerTick [] 12 0 = ([HWEvent.status hbLostMsg], 0) := by
  constructor <;> norm_num [readerTick, decode]

/-- C6 (amended): every tick of the reader loop whose instant lies more than
10 seconds after the last heartbeat (as updated by this tick's line) emits
exactly one `Status{"Heartbeat lost"}` event, and a tick within 10 seconds
of a heartbeat emits none. -/
theorem C6_heartbeat_lost_per_tick (line : List Char) (now lhb : ℚ) :
    (10 < now - (decode line now lhb).2 →
      ((readerTick line now lhb).1.count (.status hbLostMsg)) = 1) ∧
    (¬10 < now - (decode line now lhb).2 →
      ((readerTick line now lhb).1.count (.status hbLostMsg)) = 0) := by
  have h0 : (decode line now lhb).1.count (HWEvent.status hbLostMsg) = 0 :=
    List.count_eq_zero.mpr (status_hbLost_not_mem_decode line now lhb)
  constructor
  · intro h
    simp only [readerTick, if_pos h, List.count_append, h0]
    simp [List.count_cons]
  · intro h
    simp only [readerTick, if_neg h]
    exact h0

/-- C9: once `stop()` has raised the stop flag, the reader thread only moves
toward exit (it can never pass the loop-top check again, so `join()` returns
after at most the in-flight bounded poll); and from any state in which the
reader thread has exited — the situation after `stop()` returns — no later
step grows the buffer or touches the producer queue: everything a later
`get()` delivers was already buffered, drained in order. -/
theorem C9_bridge_stop {α : Type} (s s' : BridgeState α) :
    (BridgeStep s s' → s.stopped = true →
      s'.stopped = true ∧ readerDistance s'.pc ≤ readerDistance s.pc ∧
        (s'.pc ≠ s.pc → readerDistance s'.pc < readerDistance s.pc)) ∧
    (s.pc = .done → Relation.ReflTransGen BridgeStep s s' →
      s'.pc = .done ∧ s'.producer = s.producer ∧
        ∃ k, s'.delivered = s.delivered ++ s.buffered.take k ∧
          s'.buffered = s.buffered.drop k) := by
  constructor
  · intro h hs
    cases h with
    | check_continue h1 h2 => rw [hs] at h2; exact Bool.noConfusion h2
    | check_exit h1 h2 =>
      refine ⟨hs, ?_, ?_⟩ <;> simp [h1, readerDistance]
    | fetch_item m rest h1 h2 =>
      refine ⟨hs, ?_, ?_⟩ <;> simp [h1, readerDistance]
    | fetch_timeout h1 =>
      refine ⟨hs, ?_, ?_⟩ <;> simp [h1, readerDistance]
    | stop_signal =>
      exact ⟨rfl, le_refl _, fun hne => absurd rfl hne⟩
    | consumer_get m rest h1 =>
      exact ⟨hs, le_refl _, fun hne => absurd rfl hne⟩
  · intro hdone hsteps
    revert hdone
    induction hsteps using Relation.ReflTransGen.head_induction_on with
    | refl => exact fun h => ⟨h, rfl, 0, by simp, by simp⟩
    | head h' hrest ih =>
      intro hpc
      cases h' with
      | check_continue h1 h2 => exact absurd (hpc.symm.trans h1) (by decide)
      | check_exit h1 h2 => exact absurd (hpc.symm.trans h1) (by decide)
      | fetch_item m rest h1 h2 => exact absurd (hpc.symm.trans h1) (by decide)
      | fetch_timeout h1 => exact absurd (hpc.symm.trans h1) (by decide)
      | stop_signal =>
        obtain ⟨h1, h2, k, h3, h4⟩ := ih (by simpa using hpc)
        exact ⟨h1, by simpa using h2, k, by simpa using h3, by simpa using h4⟩
      | consumer_get m rest h1 =>
        obtain ⟨h2, h3, k, h4, h5⟩ := ih (by simpa using hpc)
        refine ⟨h2, by simpa using h3, k + 1, ?_, ?_⟩
        · rw [h4, h1]; simp [List.take_succ_cons]
        · rw [h5, h1]; simp [List.drop_succ_cons]

/-!  ## Leaderboard accumulator lemmas -/

theorem updateStats_lap_count (s : RacerStats) (lap : Lap) :
    (updateStats s lap).lap_count =
      if 0 < lap.lap_number then s.lap_count + 1 else s.lap_count := by
  simp only [updateStats]
  split_ifs <;> rfl

theorem updateStats_best (s : RacerStats) (lap : Lap) :
    (updateStats s lap).best_lap_time =
      if 0 < lap.lap_number then oMin s.best_lap_time lap.lap_time else s.best_lap_time := by
  simp only [updateStats, oMin]
  split_ifs <;> rfl

theorem updateStats_last (s : RacerStats) (lap : Lap) :
    (updateStats s lap).last_lap_time =
      if 0 < lap.lap_number then lap.lap_time else s.last_lap_time := by
  simp only [updateStats]
  split_ifs <;> rfl

theorem updateStats_total (s : RacerStats) (lap : Lap) :
    (updateStats s lap).total_time = qMax s.total_time lap.seconds_from_race_start := by
  simp only [updateStats, qMax]
  split_ifs <;> rfl

theorem foldl_updateStats_lap_count (ls : List Lap) :
    ∀ s : RacerStats, (ls.foldl updateStats s).lap_count =
      s.lap_count + (ls.filter fun l => 0 < l.lap_number).length := by
  induction ls with
  | nil => intro s; simp
  | cons l ls ih =>
    intro s
    rw [List.foldl_cons, ih, updateStats_lap_count, List.filter_cons]
    by_cases h : 0 < l.lap_number
    · simp [h]
      omega
    · simp [h]

theorem foldl_updateStats_best (ls : List Lap) :
    ∀ s : RacerStats, (ls.foldl updateStats s).best_lap_time =
      ((ls.filter fun l => 0 < l.lap_number).map (·.lap_time)).foldl oMin s.best_lap_time := by
  induction ls with
  | nil => intro s; simp
  | cons l ls ih =>
    intro s
    rw [List.foldl_cons, ih, updateStats_best, List.filter_cons]
    by_cases h : 0 < l.lap_number <;> simp [h]

theorem foldl_updateStats_total (ls : List Lap) :
    ∀ s : RacerStats, (ls.foldl updateStats s).total_time =
      (ls.map (·.seconds_from_race_start)).foldl qMax s.total_time := by
  induction ls with
  | nil => intro s; simp
  | cons l ls ih =>
    intro s
    rw [List.foldl_cons, ih, updateStats_total, List.map_cons, List.foldl_cons]

theorem getLast?_cons_eq (l : Lap) (ls : List Lap) :
    (l :: ls).getLast? = some ((ls.getLast?).getD l) := by
  induction ls generalizing l with
  | nil => rfl
  | cons b bs ih =>
    rw [List.getLast?_cons_cons, ih b]
    simp

theorem foldl_updateStats_last (ls : List Lap) (h : ∀ l ∈ ls, 0 < l.lap_number) :
    ∀ s : RacerStats, (ls.foldl updateStats s).last_lap_time =
      ((ls.getLast?).map (·.lap_time)).getD s.last_lap_time := by
  induction ls with
  | nil => intro s; rfl
  | cons l ls ih =>
    intro s
    rw [List.foldl_cons, ih (fun x hx => h x (List.mem_cons_of_mem l hx)),
      updateStats_last, if_pos (h l (List.mem_cons_self l ls)), getLast?_cons_eq]
    cases hl : ls.getLast? <;> simp [hl]

theorem oMin_some (a t : ℚ) : oMin (some a) t = if t < a then some t else some a := rfl

theorem oMin_ne_none (acc : Option ℚ) (t : ℚ) : oMin acc t ≠ none := by
  cases acc with
  | none => simp [oMin]
  | some b =>
    rw [oMin_some]
    split_ifs <;> simp

theorem foldl_oMin_eq_none_iff (ts : List ℚ) :
    ∀ acc : Option ℚ, ts.foldl oMin acc = none ↔ acc = none ∧ ts = [] := by
  induction ts with
  | nil => intro acc; simp
  | cons t ts ih =>
    intro acc
    rw [List.foldl_cons, ih]
    simp [oMin_ne_none acc t]

theorem foldl_oMin_spec (ts : List ℚ) :
    ∀ a m : ℚ, ts.foldl oMin (some a) = some m →
      (m = a ∨ m ∈ ts) ∧ m ≤ a ∧ ∀ t ∈ ts, m ≤ t := by
  induction ts with
  | nil =>
    intro a m h
    simp at h
    exact ⟨Or.inl h.symm, le_of_eq h.symm, by simp⟩
  | cons t ts ih =>
    intro a m h
    rw [List.foldl_cons, oMin_some] at h
    split_ifs at h with hta
    · obtain ⟨hm, hma, hall⟩ := ih t m h
      refine ⟨?_, ?_, ?_⟩
      · rcases hm with hm | hm
        · exact Or.inr (hm ▸ List.mem_cons_self t ts)
        · exact Or.inr (List.mem_cons_of_mem t hm)
      · exact (lt_of_le_of_lt hma hta).le
      · intro x hx
        rcases List.mem_cons.mp hx with hx | hx
        · exact hx ▸ hma
        · exact hall x hx
    · obtain ⟨hm, hma, hall⟩ := ih a m h
      refine ⟨?_, hma, ?_⟩
      · rcases hm with hm | hm
        · exact Or.inl hm
        · exact Or.inr (List.mem_cons_of_mem t hm)
      · intro x hx
        rcases List.mem_cons.mp hx with hx | hx
        · exact hx ▸ le_trans hma (not_lt.mp hta)
        · exact hall x hx

theorem foldl_qMax_spec (ts : List ℚ) :
    ∀ a : ℚ, (ts.foldl qMax a = a ∨ ts.foldl qMax a ∈ ts) ∧
      a ≤ ts.foldl qMax a ∧ ∀ t ∈ ts, t ≤ ts.foldl qMax a := by
  induction ts with
  | nil => intro a; exact ⟨Or.inl rfl, le_refl a, by simp⟩
  | cons t ts ih =>
    intro a
    rw [List.foldl_cons, show qMax a t = if a < t then t else a from rfl]
    split_ifs with hat
    · obtain ⟨hm, hge, hall⟩ := ih t
      refine ⟨?_, le_trans hat.le hge, ?_⟩
      · rcases hm with hm | hm
        · rw [hm]; exact Or.inr (List.mem_cons_self t ts)
        · exact Or.inr (List.mem_cons_of_mem t hm)
      · intro x hx
        rcases List.mem_cons.mp hx with hx | hx
        · exact hx ▸ hge
        · exact hall x hx
    · obtain ⟨hm, hge, hall⟩ := ih a
      refine ⟨?_, hge, ?_⟩
      · rcases hm with hm | hm
        · exact Or.inl hm
        · exact Or.inr (List.mem_cons_of_mem t hm)
      · intro x hx
        rcases List.mem_cons.mp hx with hx | hx
        · exact hx ▸ le_trans (not_lt.mp hat) hge
        · exact hall x hx

/-!  ## Stats dictionary lemmas -/

theorem contFold_cons (acc : Option RacerStats) (l : Lap) (ls : List Lap) :
    contFold acc (l :: ls) = contFold (some (contStep acc l)) ls := by
  cases ls <;> rfl

theorem lookupStats_addLapToStats (stats : List (ℤ × RacerStats)) (lap : Lap) (rid : ℤ) :
    lookupStats (addLapToStats stats lap) rid =
      if lap.racer_id = rid then some (contStep (lookupStats stats rid) lap)
      else lookupStats stats rid := by
  induction stats with
  | nil =>
    by_cases h : lap.racer_id = rid <;>
      simp [addLapToStats, lookupStats, contStep, h]
  | cons p rest ih =>
    obtain ⟨r, s⟩ := p
    simp only [addLapToStats]
    by_cases hr : r = lap.racer_id
    · rw [if_pos hr]
      simp only [lookupStats]
      by_cases hrid : r = rid
      · subst hrid
        rw [if_pos rfl, if_pos hr.symm, if_pos rfl]
        rfl
      · have hlr : ¬lap.racer_id = rid := fun hc => hrid (hr.trans hc)
        rw [if_neg hrid, if_neg hlr]
        rw [if_neg hrid]
    · rw [if_neg hr]
      simp only [lookupStats]
      by_cases hrid : r = rid
      · have hlr : ¬lap.racer_id = rid := fun hc => hr (hrid.trans hc.symm)
        rw [if_pos hrid, if_neg hlr]
        rw [if_pos hrid]
      · rw [if_neg hrid, ih, if_neg hrid]

theorem lookupStats_foldl (laps : List Lap) :
    ∀ (stats : List (ℤ × RacerStats)) (rid : ℤ),
      lookupStats (laps.foldl addLapToStats stats) rid =
        contFold (lookupStats stats rid) (laps.filter fun l => l.racer_id = rid) := by
  induction laps with
  | nil => intro stats rid; rfl
  | cons lap laps ih =>
    intro stats rid
    rw [List.foldl_cons, ih, lookupStats_addLapToStats, List.filter_cons]
    by_cases h : lap.racer_id = rid
    · rw [if_pos h, if_pos (by simpa using h), contFold_cons]
    · rw [if_neg h, if_neg (by simpa using h)]

theorem lookupStats_buildStats (laps : List Lap) (rid : ℤ) :
    lookupStats (buildStats laps) rid =
      contFold none (laps.filter fun l => l.racer_id = rid) :=
  lookupStats_foldl laps [] rid

theorem lookupStats_mem (stats : List (ℤ × RacerStats)) (rid : ℤ) (s : RacerStats)
    (hmem : (rid, s) ∈ stats) (hnd : (stats.map Prod.fst).Nodup) :
    lookupStats stats rid = some s := by
  induction stats with
  | nil => simp at hmem
  | cons p rest ih =>
    obtain ⟨r, s'⟩ := p
    rw [List.map_cons, List.nodup_cons] at hnd
    rcases List.mem_cons.mp hmem with h | h
    · obtain ⟨h1, h2⟩ := Prod.mk.injEq .. |>.mp h.symm
      simp [lookupStats, h1, h2]
    · by_cases hr : r = rid
      · subst hr
        exact absurd (List.mem_map_of_mem Prod.fst h) hnd.1
      · simp only [lookupStats, if_neg hr]
        exact ih h hnd.2

theorem mem_of_lookupStats (stats : List (ℤ × RacerStats)) (rid : ℤ) (s : RacerStats)
    (h : lookupStats stats rid = some s) : (rid, s) ∈ stats := by
  induction stats with
  | nil => simp [lookupStats] at h
  | cons p rest ih =>
    obtain ⟨r, s'⟩ := p
    by_cases hr : r = rid
    · subst hr
      simp only [lookupStats, eq_self_iff_true, if_true, Option.some.injEq] at h
      subst h
      exact List.mem_cons_self _ _
    · simp only [lookupStats, if_neg hr] at h
      exact List.mem_cons_of_mem _ (ih h)

theorem keys_addLapToStats (stats : List (ℤ × RacerStats)) (lap : Lap) :
    (addLapToStats stats lap).map Prod.fst =
      if lap.racer_id ∈ stats.map Prod.fst then stats.map Prod.fst
      else stats.map Prod.fst ++ [lap.racer_id] := by
  induction stats with
  | nil => simp [addLapToStats]
  | cons p rest ih =>
    obtain ⟨r, s⟩ := p
    simp only [addLapToStats]
    by_cases hr : r = lap.racer_id
    · subst hr
      simp
    · simp only [if_neg hr, List.map_cons, ih, List.mem_cons]
      by_cases hmem : lap.racer_id ∈ rest.map Prod.fst
      · simp [hmem, hr]
      · have h' : ¬lap.racer_id = r := fun hc => hr hc.symm
        simp [hmem, h']

theorem keys_nodup_addLapToStats (stats : List (ℤ × RacerStats)) (lap : Lap)
    (hnd : (stats.map Prod.fst).Nodup) : ((addLapToStats stats lap).map Prod.fst).Nodup := by
  rw [keys_addLapToStats]
  split_ifs with h
  · exact hnd
  · rw [List.nodup_append]
    refine ⟨hnd, List.nodup_singleton _, ?_⟩
    intro a ha hb
    rw [List.mem_singleton] at hb
    subst hb
    exact h ha

theorem buildStats_keys_nodup (laps : List Lap) : ((buildStats laps).map Prod.fst).Nodup := by
  have inv : ∀ stats : List (ℤ × RacerStats), (stats.map Prod.fst).Nodup →
      ((laps.foldl addLapToStats stats).map Prod.fst).Nodup := by
    induction laps with
    | nil => exact fun stats h => h
    | cons lap laps ih =>
      intro stats h
      exact ih _ (keys_nodup_addLapToStats stats lap h)
  exact inv [] (by simp)

/-!  ## Leaderboard structural lemmas -/

theorem length_leaderboard (laps : List Lap) :
    (leaderboard laps).length = (List.insertionSort statsKeyLE (buildStats laps)).length := by
  simp [leaderboard]

theorem leaderboard_get (laps : List Lap) (i : Fin (leaderboard laps).length)
    (j : Fin (List.insertionSort statsKeyLE (buildStats laps)).length) (hij : (j : ℕ) = (i : ℕ)) :
    (leaderboard laps).get i =
      { position := (i : ℕ) + 1
        racer_id := ((List.insertionSort statsKeyLE (buildStats laps)).get j).1
        lap_count := ((List.insertionSort statsKeyLE (buildStats laps)).get j).2.lap_count
        best_lap_time := ((List.insertionSort statsKeyLE (buildStats laps)).get j).2.best_lap_time
        last_lap_time := ((List.insertionSort statsKeyLE (buildStats laps)).get j).2.last_lap_time
        total_time := ((List.insertionSort statsKeyLE (buildStats laps)).get j).2.total_time } := by
  obtain ⟨iv, hi⟩ := i
  obtain ⟨jv, hj⟩ := j
  cases hij
  simp only [leaderboard, List.get_eq_getElem, List.getElem_map, List.getElem_enum]

theorem leaderboard_map_racer (laps : List Lap) :
    (leaderboard laps).map (·.racer_id) =
      (List.insertionSort statsKeyLE (buildStats laps)).map Prod.fst := by
  simp only [leaderboard, List.map_map]
  have h2 : ((List.insertionSort statsKeyLE (buildStats laps)).enum.map Prod.snd).map Prod.fst =
      (List.insertionSort statsKeyLE (buildStats laps)).map Prod.fst := by
    rw [List.enum_map_snd]
  rw [← h2, List.map_map]
  rfl

theorem leaderboard_racer_nodup (laps : List Lap) :
    ((leaderboard laps).map (·.racer_id)).Nodup := by
  rw [leaderboard_map_racer]
  exact ((List.perm_insertionSort statsKeyLE (buildStats laps)).map Prod.fst).nodup_iff.mpr
    (buildStats_keys_nodup laps)

theorem leaderboard_entry_lookup (laps : List Lap) (e : LBEntry)
    (he : e ∈ leaderboard laps) :
    lookupStats (buildStats laps) e.racer_id =
      some ⟨e.lap_count, e.best_lap_time, e.last_lap_time, e.total_time⟩ := by
  obtain ⟨i, hi⟩ := List.mem_iff_get.mp he
  have hlen : (i : ℕ) < (List.insertionSort statsKeyLE (buildStats laps)).length := by
    rw [← length_leaderboard laps]; exact i.2
  have hget := leaderboard_get laps i ⟨i, hlen⟩ rfl
  rw [hget] at hi
  have hpm : (List.insertionSort statsKeyLE (buildStats laps)).get ⟨(i : ℕ), hlen⟩ ∈
      List.insertionSort statsKeyLE (buildStats laps) := List.get_mem _ _ _
  have hmem := (List.mem_insertionSort statsKeyLE).mp hpm
  rw [← hi]
  exact lookupStats_mem _ _ _ hmem (buildStats_keys_nodup laps)

theorem leaderboard_mem_racer (laps : List Lap) (rid : ℤ) :
    (∃ e ∈ leaderboard laps, e.racer_id = rid) ↔ ∃ l ∈ laps, l.racer_id = rid := by
  constructor
  · rintro ⟨e, he, rfl⟩
    have hl := leaderboard_entry_lookup laps e he
    rw [lookupStats_buildStats] at hl
    rcases hfil : laps.filter (fun l => l.racer_id = e.racer_id) with _ | ⟨l, ls⟩
    · rw [hfil] at hl
      exact absurd hl (by simp [contFold])
    · have : l ∈ laps.filter (fun l => l.racer_id = e.racer_id) := by
        rw [hfil]; exact List.mem_cons_self l ls
      have := List.mem_filter.mp this
      exact ⟨l, this.1, by simpa using this.2⟩
  · rintro ⟨l, hmem, rfl⟩
    have hfil : laps.filter (fun x => x.racer_id = l.racer_id) ≠ [] := by
      intro hc
      have := List.filter_eq_nil_iff.mp hc l hmem
      simp at this
    rcases hne : laps.filter (fun x => x.racer_id = l.racer_id) with _ | ⟨l0, ls⟩
    · exact absurd hne hfil
    · have hlook : lookupStats (buildStats laps) l.racer_id =
          some (ls.foldl updateStats (initStats l0)) := by
        rw [lookupStats_buildStats, hne]
        rfl
      have hmemb := mem_of_lookupStats _ _ _ hlook
      have hss : (l.racer_id, ls.foldl updateStats (initStats l0)) ∈
          List.insertionSort statsKeyLE (buildStats laps) :=
        (List.mem_insertionSort statsKeyLE).mpr hmemb
      obtain ⟨j, hj⟩ := List.mem_iff_get.mp hss
      have hlen : (j : ℕ) < (leaderboard laps).length := by
        rw [length_leaderboard laps]; exact j.2
      refine ⟨(leaderboard laps).get ⟨(j : ℕ), hlen⟩, List.get_mem _ _ _, ?_⟩
      rw [leaderboard_get laps ⟨(j : ℕ), hlen⟩ j rfl]
      rw [hj]

theorem countScored_eq_filter_filter (laps : List Lap) (rid : ℤ) :
    countScored laps rid =
      ((laps.filter fun l => l.racer_id = rid).filter fun l => 0 < l.lap_number).length := by
  unfold countScored
  rw [List.filter_filter]
  congr 1
  apply List.filter_congr
  intro l _
  simp [Bool.and_comm]

theorem scoredTimes_eq_filter_filter (laps : List Lap) (rid : ℤ) :
    scoredTimes laps rid =
      ((laps.filter fun l => l.racer_id = rid).filter fun l => 0 < l.lap_number).map
        (·.lap_time) := by
  unfold scoredTimes
  rw [List.filter_filter]
  congr 1
  apply List.filter_congr
  intro l _
  simp [Bool.and_comm]

theorem leaderboard_entry_spec (laps : List Lap) (e : LBEntry) (he : e ∈ leaderboard laps) :
    laps.filter (fun l => l.racer_id = e.racer_id) ≠ [] ∧
    e.lap_count = countScored laps e.racer_id ∧
    e.best_lap_time = (scoredTimes laps e.racer_id).foldl oMin none ∧
    e.total_time ∈ racerTotals laps e.racer_id ∧
    (∀ t ∈ racerTotals laps e.racer_id, t ≤ e.total_time) := by
  have hl := leaderboard_entry_lookup laps e he
  rw [lookupStats_buildStats] at hl
  rcases hfil : laps.filter (fun l => l.racer_id = e.racer_id) with _ | ⟨l, ls⟩
  · rw [hfil] at hl
    exact absurd hl (by simp [contFold])
  · rw [hfil] at hl
    have hst : ls.foldl updateStats (initStats l) =
        ⟨e.lap_count, e.best_lap_time, e.last_lap_time, e.total_time⟩ := by
      have hcf : contFold none (l :: ls) = some (ls.foldl updateStats (contStep none l)) := rfl
      rw [hcf] at hl
      exact Option.some.injEq .. |>.mp hl
    refine ⟨by simp [hfil], ?_, ?_, ?_, ?_⟩
    · have hcnt := congrArg RacerStats.lap_count hst
      rw [foldl_updateStats_lap_count] at hcnt
      simp only [initStats] at hcnt
      rw [countScored_eq_filter_filter, hfil, List.filter_cons]
      by_cases h0 : l.lap_number = 0
      · have hpos : ¬0 < l.lap_number := by omega
        rw [if_pos h0] at hcnt
        rw [if_neg (by simpa using hpos)]
        omega
      · have hpos : 0 < l.lap_number := by omega
        rw [if_neg h0] at hcnt
        rw [if_pos (by simpa using hpos)]
        simp only [List.length_cons]
        omega
    · have hbest := congrArg RacerStats.best_lap_time hst
      rw [foldl_updateStats_best] at hbest
      simp only [initStats] at hbest
      rw [scoredTimes_eq_filter_filter, hfil, List.filter_cons]
      by_cases h0 : l.lap_number = 0
      · have hpos : ¬0 < l.lap_number := by omega
        rw [if_pos h0] at hbest
        rw [if_neg (by simpa using hpos)]
        exact hbest.symm
      · have hpos : 0 < l.lap_number := by omega
        rw [if_neg h0] at hbest
        rw [if_pos (by simpa using hpos), List.map_cons, List.foldl_cons]
        exact hbest.symm
    · have htot := congrArg RacerStats.total_time hst
      rw [foldl_updateStats_total] at htot
      simp only [initStats] at htot
      obtain ⟨hm, hge, hall⟩ := foldl_qMax_spec (ls.map (·.seconds_from_race_start))
        l.seconds_from_race_start
      rw [htot] at hm
      unfold racerTotals
      rw [hfil, List.map_cons]
      rcases hm with hm | hm
      · rw [hm]
        exact List.mem_cons_self _ _
      · exact List.mem_cons_of_mem _ hm
    · have htot := congrArg RacerStats.total_time hst
      rw [foldl_updateStats_total] at htot
      simp only [initStats] at htot
      obtain ⟨hm, hge, hall⟩ := foldl_qMax_spec (ls.map (·.seconds_from_race_start))
        l.seconds_from_race_start
      rw [htot] at hge hall
      unfold racerTotals
      rw [hfil, List.map_cons]
      intro t ht
      rcases List.mem_cons.mp ht with ht | ht
      · exact ht ▸ hge
      · exact hall t ht

theorem addLap_ok_spec (race : Race) (lap : Lap) (r' : Race)
    (h : addLap race lap = .ok r') :
    (race.state = RaceState.RUNNING ∨ race.state = RaceState.WINNER_DECLARED) ∧
    r'.laps = race.laps ++ [lap] ∧
    r'.active_contestants =
      (if 0 < lap.lap_number then insert lap.racer_id race.active_contestants
       else race.active_contestants) ∧
    r'.total_laps = race.total_laps ∧
    (leaderboard r'.laps = [] → r'.state = race.state) ∧
    ∀ leader : LBEntry, ∀ rest : List LBEntry, leaderboard r'.laps = leader :: rest →
      r'.state =
        if r'.active_contestants.Nonempty ∧
            (∀ e ∈ leaderboard r'.laps, e.racer_id ∈ r'.active_contestants →
              race.total_laps ≤ (e.lap_count : ℤ))
        then RaceState.FINISHED
        else if race.total_laps ≤ (leader.lap_count : ℤ) ∧ race.state = RaceState.RUNNING
        then RaceState.WINNER_DECLARED
        else race.state := by
  unfold addLap at h
  by_cases hguard : race.state = RaceState.RUNNING ∨ race.state = RaceState.WINNER_DECLARED
  · rw [if_pos hguard] at h
    rcases hlb : leaderboard (race.laps ++ [lap]) with _ | ⟨leader0, rest0⟩
    · simp only [hlb, Except.ok.injEq] at h
      subst h
      refine ⟨hguard, rfl, rfl, rfl, fun _ => rfl, ?_⟩
      intro leader rest hcons
      rw [hlb] at hcons
      exact List.noConfusion hcons
    · simp only [hlb, Except.ok.injEq] at h
      subst h
      refine ⟨hguard, rfl, rfl, rfl, ?_, ?_⟩
      · intro hnil
        rw [hlb] at hnil
        exact List.noConfusion hnil
      · intro leader rest hcons
        rw [hlb] at hcons
        obtain ⟨h1, _⟩ := List.cons.injEq .. |>.mp hcons
        subst h1
        simp only [hlb]
  · rw [if_neg hguard] at h
    exact Except.noConfusion h

/-- C2: the leaderboard has one entry per distinct racer seen in the laps
(its racer ids are duplicate-free and cover exactly the racers with laps),
it is sorted by lap count descending then best lap time ascending (with
`none` playing +infinity), positions are exactly 1..N in order, and each
entry's `lap_count` counts only laps with `lap_number > 0`, its
`best_lap_time` is the least scored lap time (`none` when the racer has no
scored lap), and its `total_time` is the greatest `seconds_from_race_start`
observed for that racer. -/
theorem C2_leaderboard_characterisation (laps : List Lap) :
    (((leaderboard laps).map (·.racer_id)).Nodup ∧
      ∀ rid : ℤ, (rid ∈ (leaderboard laps).map (·.racer_id) ↔ ∃ l ∈ laps, l.racer_id = rid)) ∧
    (∀ i j : Fin (leaderboard laps).length, i < j →
      ((leaderboard laps).get j).lap_count < ((leaderboard laps).get i).lap_count ∨
        (((leaderboard laps).get i).lap_count = ((leaderboard laps).get j).lap_count ∧
          bestLE ((leaderboard laps).get i).best_lap_time
            ((leaderboard laps).get j).best_lap_time = true)) ∧
    (∀ i : Fin (leaderboard laps).length, ((leaderboard laps).get i).position = (i : ℕ) + 1) ∧
    ∀ e ∈ leaderboard laps,
      e.lap_count = countScored laps e.racer_id ∧
      (scoredTimes laps e.racer_id = [] → e.best_lap_time = none) ∧
      (∀ m : ℚ, e.best_lap_time = some m →
        m ∈ scoredTimes laps e.racer_id ∧ ∀ t ∈ scoredTimes laps e.racer_id, m ≤ t) ∧
      (scoredTimes laps e.racer_id ≠ [] → e.best_lap_time ≠ none) ∧
      e.total_time ∈ racerTotals laps e.racer_id ∧
      (∀ t ∈ racerTotals laps e.racer_id, t ≤ e.total_time) := by
  refine ⟨⟨leaderboard_racer_nodup laps, ?_⟩, ?_, ?_, ?_⟩
  · intro rid
    rw [List.mem_map]
    constructor
    · rintro ⟨e, he, hrid⟩
      exact (leaderboard_mem_racer laps rid).mp ⟨e, he, hrid⟩
    · intro h
      obtain ⟨e, he, hrid⟩ := (leaderboard_mem_racer laps rid).mpr h
      exact ⟨e, he, hrid⟩
  · intro i j hij
    have hs : (List.insertionSort statsKeyLE (buildStats laps)).Pairwise statsKeyLE :=
      List.sorted_insertionSort statsKeyLE (buildStats laps)
    rw [List.pairwise_iff_get] at hs
    have hli : (i : ℕ) < (List.insertionSort statsKeyLE (buildStats laps)).length := by
      rw [← length_leaderboard laps]; exact i.2
    have hlj : (j : ℕ) < (List.insertionSort statsKeyLE (buildStats laps)).length := by
      rw [← length_leaderboard laps]; exact j.2
    rw [leaderboard_get laps i ⟨(i : ℕ), hli⟩ rfl, leaderboard_get laps j ⟨(j : ℕ), hlj⟩ rfl]
    exact hs ⟨(i : ℕ), hli⟩ ⟨(j : ℕ), hlj⟩ hij
  · intro i
    have hli : (i : ℕ) < (List.insertionSort statsKeyLE (buildStats laps)).length := by
      rw [← length_leaderboard laps]; exact i.2
    rw [leaderboard_get laps i ⟨(i : ℕ), hli⟩ rfl]
  · intro e he
    obtain ⟨hne, hcnt, hbest, htot1, htot2⟩ := leaderboard_entry_spec laps e he
    refine ⟨hcnt, ?_, ?_, ?_, htot1, htot2⟩
    · intro hnil
      rw [hbest, hnil]
      rfl
    · intro m hm
      rw [hbest] at hm
      rcases hts : scoredTimes laps e.racer_id with _ | ⟨t, ts⟩
      · rw [hts] at hm
        exact absurd hm (by simp)
      · rw [hts, List.foldl_cons] at hm
        have hstep : oMin none t = some t := rfl
        rw [hstep] at hm
        obtain ⟨hmem, hle, hall⟩ := foldl_oMin_spec ts t m hm
        constructor
        · rcases hmem with hmem | hmem
          · rw [hmem]; exact List.mem_cons_self _ _
          · exact List.mem_cons_of_mem _ hmem
        · intro x hx
          rcases List.mem_cons.mp hx with hx | hx
          · exact hx ▸ hle
          · exact hall x hx
    · intro hnn hnone
      rw [hbest] at hnone
      obtain ⟨-, hnil⟩ := (foldl_oMin_eq_none_iff _ none).mp hnone
      exact hnn hnil

/-- C7 (counterexample): for a racer whose scored lap is followed by a
lap-0 record, the leaderboard's `last_lap_time` stays at the scored lap's
time (5) while the most recently appended lap of that racer has lap_time 7 —
a late lap 0 does **not** update `last_lap_time`. -/
theorem C7_last_lap_cex :
    leaderboard cexC7Laps = [⟨1, 1, 1, some 5, 5, 7⟩] ∧
    lastLapTimeOf cexC7Laps 1 = some 7 ∧ ((5 : ℚ) = 7 → False) := by
  refine ⟨by decide, by decide, by decide⟩

/-- C7 (amended): provided every lap-0 record of a racer is that racer's
first lap in the race (which is how laps are derived in a session), each
leaderboard entry's `last_lap_time` equals the lap_time of that racer's most
recently appended lap — including the case where the racer's only lap is
lap 0. -/
theorem C7_last_lap_time (laps : List Lap) (e : LBEntry) (he : e ∈ leaderboard laps)
    (hz : ∀ l ∈ (laps.filter fun x => x.racer_id = e.racer_id).tail, 0 < l.lap_number) :
    some e.last_lap_time = lastLapTimeOf laps e.racer_id := by
  have hl := leaderboard_entry_lookup laps e he
  rw [lookupStats_buildStats] at hl
  rcases hfil : laps.filter (fun l => l.racer_id = e.racer_id) with _ | ⟨l, ls⟩
  · rw [hfil] at hl
    exact absurd hl (by simp [contFold])
  · rw [hfil] at hl
    have hst : ls.foldl updateStats (initStats l) =
        ⟨e.lap_count, e.best_lap_time, e.last_lap_time, e.total_time⟩ := by
      have hcf : contFold none (l :: ls) = some (ls.foldl updateStats (contStep none l)) := rfl
      rw [hcf] at hl
      exact Option.some.injEq .. |>.mp hl
    have hztail : ∀ x ∈ ls, 0 < x.lap_number := by
      intro x hx
      apply hz
      rw [hfil]
      exact hx
    have hlast := congrArg RacerStats.last_lap_time hst
    rw [foldl_updateStats_last ls hztail] at hlast
    unfold lastLapTimeOf
    rw [hfil, getLast?_cons_eq]
    simp only [initStats] at hlast
    rw [← hlast]
    cases hg : ls.getLast? <;> simp [hg]

/-- C7 witness: the amended statement at a concrete two-lap race. -/
theorem C7_last_lap_time_witness :
    some ((8 : ℚ)) = lastLapTimeOf witC7Laps (1 : ℤ) :=
  C7_last_lap_time witC7Laps ⟨1, 1, 1, some 8, 8, 10⟩ (by decide) (by decide)

/-- C1 (counterexample): a running race with an empty `active_contestants`
set receives a lap-0 event; afterwards the leaderboard is non-empty and
every racer in the (empty) active set vacuously has lap count ≥ total_laps,
yet the state stays `RUNNING` — the `FINISHED` transition fires only when
`active_contestants` is non-empty. -/
theorem C1_finished_needs_contestants_cex :
    addLap cexC1Race cexC1Lap = .ok cexC1Res ∧
    leaderboard cexC1Res.laps ≠ [] ∧
    (∀ rid ∈ cexC1Res.active_contestants,
      cexC1Race.total_laps ≤ (countScored cexC1Res.laps rid : ℤ)) ∧
    ¬cexC1Res.state = RaceState.FINISHED := by
  refine ⟨by decide, by decide, by decide, by decide⟩

/-- C1 (amended): for a successful `add_lap` call whose recomputed
leaderboard is non-empty: if the leader has reached `total_laps` while the
race was `RUNNING`, the final state is `WINNER_DECLARED` or (when the
all-finished check also fires in the same call) `FINISHED`; it is exactly
`WINNER_DECLARED` when some active contestant with laps on record is still
short of `total_laps`; and whenever `active_contestants` is non-empty and
every racer in it has lap count ≥ `total_laps`, the final state is
`FINISHED` (also from `WINNER_DECLARED`).  Moreover the spec's
`total_laps = 3` scenario runs as claimed: after A's lap 3 the state is
`WINNER_DECLARED` with A first at lap_count 3, and after B's lap 3 it is
`FINISHED`. -/
theorem C1_race_completion (race : Race) (lap : Lap) (r' : Race)
    (hadd : addLap race lap = .ok r') (leader : LBEntry) (rest : List LBEntry)
    (hlb : leaderboard r'.laps = leader :: rest) :
    ((race.total_laps ≤ (leader.lap_count : ℤ) ∧ race.state = RaceState.RUNNING →
        r'.state = RaceState.WINNER_DECLARED ∨ r'.state = RaceState.FINISHED) ∧
     (race.total_laps ≤ (leader.lap_count : ℤ) ∧ race.state = RaceState.RUNNING →
        (∃ rid ∈ r'.active_contestants, (∃ l ∈ r'.laps, l.racer_id = rid) ∧
            (countScored r'.laps rid : ℤ) < race.total_laps) →
        r'.state = RaceState.WINNER_DECLARED) ∧
     (r'.active_contestants.Nonempty →
        (∀ rid ∈ r'.active_contestants, race.total_laps ≤ (countScored r'.laps rid : ℤ)) →
        r'.state = RaceState.FINISHED)) ∧
    ((addLaps scenarioRace scenarioFirst7 = .ok scenarioAfter7 ∧
        scenarioAfter7.state = RaceState.WINNER_DECLARED) ∧
     (leaderboard scenarioAfter7.laps).head? = some ⟨1, 1, 3, some 9, 11, 31⟩ ∧
     (addLaps scenarioRace scenarioAll8 = .ok scenarioAfter8 ∧
        scenarioAfter8.state = RaceState.FINISHED)) := by
  obtain ⟨hguard, hlaps, hactive, htotal, -, hchar⟩ := addLap_ok_spec race lap r' hadd
  have hstate := hchar leader rest hlb
  refine ⟨⟨?_, ?_, ?_⟩, ⟨by decide, by decide⟩, by decide, ⟨by decide, by decide⟩⟩
  · intro hw
    by_cases hC : r'.active_contestants.Nonempty ∧
        ∀ e ∈ leaderboard r'.laps, e.racer_id ∈ r'.active_contestants →
          race.total_laps ≤ (e.lap_count : ℤ)
    · rw [hstate, if_pos hC]
      exact Or.inr rfl
    · rw [hstate, if_neg hC, if_pos hw]
      exact Or.inl rfl
  · intro hw hunfin
    obtain ⟨rid, hridA, hinlaps, hcnt⟩ := hunfin
    have hnotC : ¬(r'.active_contestants.Nonempty ∧
        ∀ e ∈ leaderboard r'.laps, e.racer_id ∈ r'.active_contestants →
          race.total_laps ≤ (e.lap_count : ℤ)) := by
      rintro ⟨-, hall⟩
      obtain ⟨e, he, herid⟩ := (leaderboard_mem_racer r'.laps rid).mpr hinlaps
      have hespec := (leaderboard_entry_spec r'.laps e he).2.1
      have := hall e he (herid ▸ hridA)
      rw [hespec, herid] at this
      omega
    rw [hstate, if_neg hnotC, if_pos hw]
  · intro hne hall
    have hC : r'.active_contestants.Nonempty ∧
        ∀ e ∈ leaderboard r'.laps, e.racer_id ∈ r'.active_contestants →
          race.total_laps ≤ (e.lap_count : ℤ) := by
      refine ⟨hne, ?_⟩
      intro e he heA
      have hespec := (leaderboard_entry_spec r'.laps e he).2.1
      rw [hespec]
      exact hall e.racer_id heA
    rw [hstate, if_pos hC]

/-- C1 witness: the amended statement applied to the scenario race after
the first seven events, with B's final lap as the incoming event. -/
theorem C1_race_completion_witness : scenarioAfter8.state = RaceState.FINISHED := by
  have h := C1_race_completion scenarioAfter7 lapB3 scenarioAfter8 (by decide)
      ⟨1, 1, 3, some 9, 11, 31⟩ [⟨2, 2, 3, some 12, 14, 41⟩] (by decide)
  exact h.1.2.2 ⟨1, by decide⟩ (by decide)

end Franklin
